import Mathlib

/-!
Verification of the `rapid_analysis` quick-look image-examination core
(`python/lsst/rapid/analysis/imageExaminer.py` and `utils.py`).

The embedding below translates the cutout-geometry, centroid-refinement,
radial-sampling and encircled-energy code into Lean.  Pixel values are
modelled as rationals; Euclidean distances are carried as their squares
(`distSq`), which is faithful for every comparison and ordering the code
performs because all compared distances are nonnegative.
-/

namespace RapidAnalysis

/-! ## The embedding: data model and operations -/

/-- Axis-aligned integer box with inclusive corners, modelling
`lsst.geom.Box2I` as used by `ImageExaminer._calcBbox`.  The box is empty
when `x1 < x0` or `y1 < y0`. -/
structure Box2I where
  x0 : Int
  y0 : Int
  x1 : Int
  y1 : Int
deriving DecidableEq

/-- Model of `geom.Box2I(geom.Point2I(c), geom.Extent2I(1, 1))`: the
single-pixel box whose minimum corner is the integer centroid `c`. -/
def unitBoxAt (c : Int × Int) : Box2I := ⟨c.1, c.2, c.1, c.2⟩

/-- Model of `Box2I.dilatedBy(h)`: grow the box by `h` pixels on every side. -/
def Box2I.dilatedBy (b : Box2I) (h : Int) : Box2I :=
  ⟨b.x0 - h, b.y0 - h, b.x1 + h, b.y1 + h⟩

/-- Model of `Box2I.clippedTo(o)`: intersection with the box `o`. -/
def Box2I.clippedTo (b o : Box2I) : Box2I :=
  ⟨max b.x0 o.x0, max b.y0 o.y0, min b.x1 o.x1, min b.y1 o.y1⟩

/-- First component of `Box2I.getDimensions()` (the width); an empty box has
zero dimensions. -/
def Box2I.dimX (b : Box2I) : Int :=
  if b.x1 < b.x0 ∨ b.y1 < b.y0 then 0 else b.x1 - b.x0 + 1

/-- Second component of `Box2I.getDimensions()` (the height). -/
def Box2I.dimY (b : Box2I) : Int :=
  if b.x1 < b.x0 ∨ b.y1 < b.y0 then 0 else b.y1 - b.y0 + 1

/-- Predicate: `b` lies entirely inside `o`. -/
def Box2I.insideOf (b o : Box2I) : Prop :=
  o.x0 ≤ b.x0 ∧ b.x1 ≤ o.x1 ∧ o.y0 ≤ b.y0 ∧ b.y1 ≤ o.y1

/-- Model of `ImageExaminer._calcMaxBoxHalfSize`: minimum distance between the
integer centroid `(x, y)` and the chip edges, with `ll = getBeginX()`,
`r = getEndX() = x1 + 1`, `d = getBeginY()`, `u = getEndY() = y1 + 1`.
The source's `assert maxSize >= 0` is modelled as an error result. -/
def calcMaxBoxHalfSize (bounds : Box2I) (x y : Int) : Except String Int :=
  let ll := bounds.x0
  let r := bounds.x1 + 1
  let d := bounds.y0
  let u := bounds.y1 + 1
  let maxSize := min (min (x - ll) (r - x - 1)) (min (u - y - 1) (y - d))
  if 0 ≤ maxSize then Except.ok maxSize
  else Except.error "Box calculation went wrong"

/-- Model of `ImageExaminer._calcBbox` for an integer centroid, with explicit
fuel for the unbounded recursion (`none` = fuel exhausted).  Returns the
final box together with the final `boxHalfSize`, since the source mutates
`self.boxHalfSize` when it shrinks the selection. -/
def calcBbox (bounds : Box2I) : Nat → Int → Int × Int → Option (Except String (Box2I × Int))
  | 0, _, _ => none
  | fuel + 1, h, c =>
    let bbox := ((unitBoxAt c).dilatedBy h).clippedTo bounds
    if bbox.dimX ≠ bbox.dimY then
      match calcMaxBoxHalfSize bounds c.1 c.2 with
      | Except.error e => some (Except.error e)
      | Except.ok m => calcBbox bounds fuel m c
    else
      some (Except.ok (bbox, h))

/-- A 2D pixel array (the cutout `self.data`), with `data.shape = (rows, cols)`
and pixel values given by `val`. -/
structure PixelArray where
  rows : Nat
  cols : Nat
  val : Nat → Nat → Rat

/-- All pixel indices in row-major order - the iteration order of `np.where`
and of the explicit double loop in `radialAverageAndFit`. -/
def PixelArray.pixels (a : PixelArray) : List (Nat × Nat) :=
  (List.range a.rows).flatMap fun i => (List.range a.cols).map fun j => (i, j)

/-- Maximum of a list of rationals (`np.max` semantics on a nonempty list;
the `[]` case is arbitrary since `np.max` raises there). -/
def listMax : List Rat → Rat
  | [] => 0
  | x :: xs => xs.foldl max x

/-- Model of `np.max(array)` over the whole array. -/
def PixelArray.maxVal (a : PixelArray) : Rat :=
  listMax (a.pixels.map fun p => a.val p.1 p.2)

/-- The coordinates holding the maximum value, in `np.where` row-major order
(the `maxCoords` list of `argMax2d` in `utils.py`). -/
def PixelArray.maxCoords (a : PixelArray) : List (Nat × Nat) :=
  a.pixels.filter fun p => decide (a.val p.1 p.2 = a.maxVal)

/-- Model of `argMax2d` from `utils.py`: the first max location, whether it is
unique, and the other max locations.  `none` models the `np.max` error on an
empty array. -/
def argMax2d (a : PixelArray) : Option ((Nat × Nat) × Bool × List (Nat × Nat)) :=
  match a.maxCoords with
  | [] => none
  | c :: rest => some (c, rest.isEmpty, rest)

/-- Model of `scipy.ndimage.center_of_mass`: the intensity-weighted mean pixel
index (row coordinate first), with total intensity `s`. -/
def centerOfMass (a : PixelArray) : Rat × Rat :=
  let s := (a.pixels.map fun p => a.val p.1 p.2).sum
  ((a.pixels.map fun p => (p.1 : Rat) * a.val p.1 p.2).sum / s,
   (a.pixels.map fun p => (p.2 : Rat) * a.val p.1 p.2).sum / s)

/-- The peak position adopted by `tweakCentroid`: the max-pixel location,
replaced by the center of mass when `not uniquePeak or nSatPix`. -/
def chosenPeak (a : PixelArray) (nSatPix : Nat) : Option (Rat × Rat) :=
  match argMax2d a with
  | none => none
  | some (peak, uniquePeak, _) =>
    if uniquePeak = false ∨ nSatPix ≠ 0 then some (centerOfMass a)
    else some ((peak.1 : Rat), (peak.2 : Rat))

/-- The selection rule in the claim's words: the center of mass is used
exactly when the maximum value occurs at more than one location or the
saturated-pixel count is positive; otherwise the unique max location. -/
def chosenPeakClaim (a : PixelArray) (nSatPix : Nat) : Option (Rat × Rat) :=
  match a.maxCoords with
  | [] => none
  | c :: rest =>
    if 1 < (c :: rest).length ∨ 0 < nSatPix then some (centerOfMass a)
    else some ((c.1 : Rat), (c.2 : Rat))

/-- Model of `ImageExaminer.tweakCentroid`: offset of the chosen peak from the
cutout center `(boxHalfSize, boxHalfSize)`, added to the centroid with the
row/column axes swapped (`x = centroid[0] + offset[1]`,
`y = centroid[1] + offset[0]`). -/
def tweakCentroid (a : PixelArray) (nSatPix boxHalfSize : Nat)
    (centroid : Rat × Rat) : Option (Rat × Rat) :=
  match chosenPeak a nSatPix with
  | none => none
  | some peak =>
    let offset : Rat × Rat := (peak.1 - (boxHalfSize : Rat), peak.2 - (boxHalfSize : Rat))
    some (centroid.1 + offset.2, centroid.2 + offset.1)

/-- A 1x2 cutout whose two pixels share the same maximum value. -/
def twoMaxArray : PixelArray := ⟨1, 2, fun _ _ => 5⟩

/-- Squared Euclidean distance of pixel `(i, j)` from the geometric cutout
center `(rows/2, cols/2)` - the square of `norm((i, j) - center)`. -/
def PixelArray.distSq (a : PixelArray) (i j : Nat) : Rat :=
  ((i : Rat) - (a.rows : Rat) / 2) * ((i : Rat) - (a.rows : Rat) / 2) +
  ((j : Rat) - (a.cols : Rat) / 2) * ((j : Rat) - (a.cols : Rat) / 2)

/-- The code's keep condition: `dist > xlen//2` skips the pixel, so a pixel is
kept when `dist <= xlen//2` - compared on squares, with the integer floor
division `xlen//2` of the source. -/
def PixelArray.inDisk (a : PixelArray) (i j : Nat) : Bool :=
  decide (a.distSq i j ≤ ((a.rows / 2 : Nat) : Rat) * ((a.rows / 2 : Nat) : Rat))

/-- The (distance squared, value) radial samples, in pixel scan order. -/
def radialSamples (a : PixelArray) : List (Rat × Rat) :=
  (a.pixels.filter fun p => a.inDisk p.1 p.2).map
    fun p => (a.distSq p.1 p.2, a.val p.1 p.2)

/-- The sample rule as the spec words it: threshold `width/2` with true
(rational) division instead of the code's floor division. -/
def radialSamplesSpec (a : PixelArray) : List (Rat × Rat) :=
  (a.pixels.filter fun p =>
      decide (a.distSq p.1 p.2 ≤ (a.rows : Rat) / 2 * ((a.rows : Rat) / 2))).map
    fun p => (a.distSq p.1 p.2, a.val p.1 p.2)

/-- A 5x5 all-ones cutout. -/
def fiveArray : PixelArray := ⟨5, 5, fun _ _ => 1⟩

/-- Lexicographic comparison on (distance, value) pairs - Python's tuple
order, used by `sorted(zip(distances, values))`. -/
def pairLe (p q : Rat × Rat) : Prop := p.1 < q.1 ∨ (p.1 = q.1 ∧ p.2 ≤ q.2)

instance : DecidableRel pairLe := fun p q => by
  unfold pairLe
  infer_instance

instance : IsTotal (Rat × Rat) pairLe := by
  constructor
  intro a b
  unfold pairLe
  rcases lt_trichotomy a.1 b.1 with h | h | h
  · exact Or.inl (Or.inl h)
  · rcases le_total a.2 b.2 with h2 | h2
    · exact Or.inl (Or.inr ⟨h, h2⟩)
    · exact Or.inr (Or.inr ⟨h.symm, h2⟩)
  · exact Or.inr (Or.inl h)

instance : IsTrans (Rat × Rat) pairLe := by
  constructor
  intro a b c hab hbc
  unfold pairLe at hab hbc ⊢
  rcases hab with h1 | h1 <;> rcases hbc with h2 | h2
  · exact Or.inl (lt_trans h1 h2)
  · exact Or.inl (h2.1 ▸ h1)
  · exact Or.inl (by rw [h1.1]; exact h2)
  · exact Or.inr ⟨h1.1.trans h2.1, h1.2.trans h2.2⟩

/-- Model of `sorted(zip(distances, values))`: the distance-sorted sample table. -/
def eeTable (dists vals : List Rat) : List (Rat × Rat) :=
  List.insertionSort pairLe (List.zip dists vals)

/-- Model of `self.radii = d[:, 0]` (distance-squared column of the sorted table). -/
def radii (dists vals : List Rat) : List Rat :=
  (eeTable dists vals).map Prod.fst

/-- Model of `np.cumsum` with an explicit running accumulator. -/
def cumsumFrom (acc : Rat) : List Rat → List Rat
  | [] => []
  | x :: xs => (acc + x) :: cumsumFrom (acc + x) xs

/-- Model of `self.cumFluxes = np.cumsum(values)` over the sorted value column. -/
def cumFluxes (dists vals : List Rat) : List Rat :=
  cumsumFrom 0 ((eeTable dists vals).map Prod.snd)

/-- Model of `self.cumFluxesNorm = self.cumFluxes / np.max(self.cumFluxes)`. -/
def cumFluxesNorm (dists vals : List Rat) : List Rat :=
  (cumFluxes dists vals).map fun c => c / listMax (cumFluxes dists vals)

/-- Minimum of a list of rationals (the value found by `np.argmin`). -/
def listMin : List Rat → Rat
  | [] => 0
  | x :: xs => xs.foldl min x

/-- Model of `np.argmin`: index of the first occurrence of the minimum (`0` on
the empty list, where `np.argmin` raises). -/
def argminFirst : List Rat → Nat
  | [] => 0
  | [_] => 0
  | x :: y :: rest =>
    if listMin (y :: rest) < x then argminFirst (y :: rest) + 1 else 0

/-- Model of the difference array `np.abs((percentage/100) - self.cumFluxesNorm)`
scanned by `np.argmin` in `getEncircledEnergyRadius`. -/
def eeDiffs (dists vals : List Rat) (percentage : Rat) : List Rat :=
  (cumFluxesNorm dists vals).map fun c => |percentage / 100 - c|

/-- Model of `ImageExaminer.getEncircledEnergyRadius`:
`self.radii[np.argmin(np.abs((percentage/100) - self.cumFluxesNorm))]`. -/
def getEncircledEnergyRadius (dists vals : List Rat) (percentage : Rat) : Rat :=
  (radii dists vals).getD (argminFirst (eeDiffs dists vals percentage)) 0

/-- A Python float attribute value: NaN or an actual number. -/
inductive PyFloat
  | nan
  | val (q : Rat)
deriving DecidableEq

/-- The fit-related attributes of `self.imStats`.  `none` means the attribute
was never assigned (reads raise `AttributeError`, which `translateStats`
renders as a blank line). -/
structure FitStats where
  fitAmp : Option PyFloat
  fitMean : Option PyFloat
  fitGausMean : Option PyFloat
  fitFwhm : Option PyFloat
deriving DecidableEq

/-- Model of lines 220-233 of `radialAverageAndFit`.  `fit = none` models
`curve_fit` raising `RuntimeError` (convergence failure); `some (a, m, w)` a
successful fit.  On failure the source assigns `fitAmp`, `fitMean` and
`fitFwhm` to NaN - `fitMean`, not the `fitGausMean` attribute that the
report and the plots read.  On success it assigns `fitAmp = |a|`,
`fitGausMean = m`, `fitFwhm = |w| * SIGMATOFWHM`. -/
def applyFitResult (s : FitStats) (sigmaToFwhm : Rat)
    (fit : Option (Rat × Rat × Rat)) : FitStats :=
  match fit with
  | none => ⟨some PyFloat.nan, some PyFloat.nan, s.fitGausMean, some PyFloat.nan⟩
  | some (a, m, w) =>
    ⟨some (PyFloat.val |a|), s.fitMean, some (PyFloat.val m),
     some (PyFloat.val (|w| * sigmaToFwhm))⟩

/-- Centroid selection in `__init__`: the caller-supplied centroid if any,
else the detection collaborator's `brightestObjCentroid` when
`result.success`, else the fatal `RuntimeError`. -/
def initialCentroid (caller : Option (Rat × Rat)) (detection : Option (Rat × Rat)) :
    Except String (Rat × Rat) :=
  match caller with
  | some c => Except.ok c
  | none =>
    match detection with
    | some c => Except.ok c
    | none =>
      Except.error
        "Failed to automatically find source in image. Either provide a centroid manually or use a new image"

/-! ## Theorems, witnesses and counterexamples -/

/-- C1: with at least `halfSize` pixels of margin from the integer centroid to
every edge, the candidate box is unclipped, exactly square of side
`2*halfSize+1`, and inside the exposure bounds. -/
theorem calcBbox_margin_square (bounds : Box2I) (x y : Int) (h : Nat) (fuel : Nat)
    (hx0 : bounds.x0 + h ≤ x) (hx1 : x + h ≤ bounds.x1)
    (hy0 : bounds.y0 + h ≤ y) (hy1 : y + h ≤ bounds.y1) :
    calcBbox bounds (fuel + 1) h (x, y) =
      some (Except.ok (⟨x - h, y - h, x + h, y + h⟩, (h : Int))) ∧
    Box2I.dimX ⟨x - h, y - h, x + h, y + h⟩ = 2 * h + 1 ∧
    Box2I.dimY ⟨x - h, y - h, x + h, y + h⟩ = 2 * h + 1 ∧
    Box2I.insideOf ⟨x - h, y - h, x + h, y + h⟩ bounds := by
  have hb : ((unitBoxAt (x, y)).dilatedBy h).clippedTo bounds =
      (⟨x - h, y - h, x + h, y + h⟩ : Box2I) := by
    simp only [unitBoxAt, Box2I.dilatedBy, Box2I.clippedTo, Box2I.mk.injEq]
    refine ⟨?_, ?_, ?_, ?_⟩ <;> omega
  have hdx : Box2I.dimX ⟨x - h, y - h, x + h, y + h⟩ = 2 * h + 1 := by
    simp only [Box2I.dimX]
    rw [if_neg (by omega)]
    omega
  have hdy : Box2I.dimY ⟨x - h, y - h, x + h, y + h⟩ = 2 * h + 1 := by
    simp only [Box2I.dimY]
    rw [if_neg (by omega)]
    omega
  refine ⟨?_, hdx, hdy, ?_⟩
  · rw [calcBbox]
    simp only [hb, hdx, hdy]
    rw [if_neg (by simp)]
  · refine ⟨?_, ?_, ?_, ?_⟩ <;> · dsimp only; omega

/-- Witness for C1: a concrete exposure, centroid and halfSize with margin. -/
theorem calcBbox_margin_square_witness :
    ((⟨0, 0, 199, 199⟩ : Box2I).x0 + (50 : Nat) ≤ 100 ∧
     (100 : Int) + (50 : Nat) ≤ (⟨0, 0, 199, 199⟩ : Box2I).x1 ∧
     (⟨0, 0, 199, 199⟩ : Box2I).y0 + (50 : Nat) ≤ 90 ∧
     (90 : Int) + (50 : Nat) ≤ (⟨0, 0, 199, 199⟩ : Box2I).y1) ∧
    (calcBbox ⟨0, 0, 199, 199⟩ (3 + 1) 50 (100, 90) =
      some (Except.ok (⟨100 - 50, 90 - 50, 100 + 50, 90 + 50⟩, ((50 : Nat) : Int))) ∧
     Box2I.dimX ⟨100 - 50, 90 - 50, 100 + 50, 90 + 50⟩ = 2 * 50 + 1 ∧
     Box2I.dimY ⟨100 - 50, 90 - 50, 100 + 50, 90 + 50⟩ = 2 * 50 + 1 ∧
     Box2I.insideOf ⟨100 - 50, 90 - 50, 100 + 50, 90 + 50⟩ ⟨0, 0, 199, 199⟩) :=
  ⟨⟨by decide, by decide, by decide, by decide⟩,
   calcBbox_margin_square ⟨0, 0, 199, 199⟩ 100 90 50 3
     (by decide) (by decide) (by decide) (by decide)⟩

/-- C2: at centroid (5, 5) with halfSize 50 in a 200x200 exposure, the clipped
box `[0,55] x [0,55]` is square (56 x 56), so `_calcBbox` returns it without
ever shrinking: the half-size stays 50 instead of shrinking to 5,
contradicting the spec's scenario. -/
theorem calcBbox_edge_no_shrink :
    calcBbox ⟨0, 0, 199, 199⟩ 5 50 (5, 5) =
      some (Except.ok (⟨0, 0, 55, 55⟩, 50)) ∧
    Box2I.dimX ⟨0, 0, 55, 55⟩ = 56 ∧ (5 : Int) ≠ 55 - 0 := by
  refine ⟨?_, by decide, by decide⟩
  rfl

/-- C10: for an integer centroid strictly inside the exposure bounds the
shrink-and-retry recursion finishes within fuel 2, i.e. after at most one
shrink, with a square box inside the bounds. -/
theorem calcBbox_terminates (bounds : Box2I) (x y : Int) (h : Nat)
    (hx0 : bounds.x0 ≤ x) (hx1 : x ≤ bounds.x1)
    (hy0 : bounds.y0 ≤ y) (hy1 : y ≤ bounds.y1) :
    ∃ b hf, calcBbox bounds 2 h (x, y) = some (Except.ok (b, hf)) ∧
      b.dimX = b.dimY ∧ b.insideOf bounds := by
  set bbox1 : Box2I := ((unitBoxAt (x, y)).dilatedBy h).clippedTo bounds with hbb1
  by_cases hsq : bbox1.dimX = bbox1.dimY
  · refine ⟨bbox1, h, ?_, hsq, ?_⟩
    · rw [calcBbox]
      rw [if_neg (by simpa using hsq)]
    · refine ⟨?_, ?_, ?_, ?_⟩ <;>
        simp only [hbb1, unitBoxAt, Box2I.dilatedBy, Box2I.clippedTo] <;> omega
  · set m : Int := min (min (x - bounds.x0) (bounds.x1 + 1 - x - 1))
      (min (bounds.y1 + 1 - y - 1) (y - bounds.y0)) with hm
    have hm0 : 0 ≤ m := by omega
    have hstep : calcBbox bounds 2 h (x, y) = calcBbox bounds 1 m (x, y) := by
      rw [calcBbox]
      rw [if_pos (by simpa using hsq)]
      simp only [calcMaxBoxHalfSize]
      rw [if_pos (by omega)]
    have hb2 : ((unitBoxAt (x, y)).dilatedBy m).clippedTo bounds =
        (⟨x - m, y - m, x + m, y + m⟩ : Box2I) := by
      simp only [unitBoxAt, Box2I.dilatedBy, Box2I.clippedTo, Box2I.mk.injEq]
      refine ⟨?_, ?_, ?_, ?_⟩ <;> omega
    have hdx : Box2I.dimX ⟨x - m, y - m, x + m, y + m⟩ = 2 * m + 1 := by
      simp only [Box2I.dimX]
      rw [if_neg (by omega)]
      omega
    have hdy : Box2I.dimY ⟨x - m, y - m, x + m, y + m⟩ = 2 * m + 1 := by
      simp only [Box2I.dimY]
      rw [if_neg (by omega)]
      omega
    refine ⟨⟨x - m, y - m, x + m, y + m⟩, m, ?_, by rw [hdx, hdy], ?_⟩
    · rw [hstep, calcBbox]
      simp only [hb2, hdx, hdy]
      rw [if_neg (by simp)]
    · refine ⟨?_, ?_, ?_, ?_⟩ <;> · dsimp only; omega

/-- Witness for C10: a centroid near a corner that forces exactly one shrink. -/
theorem calcBbox_terminates_witness :
    ((⟨0, 0, 199, 199⟩ : Box2I).x0 ≤ 5 ∧ (5 : Int) ≤ (⟨0, 0, 199, 199⟩ : Box2I).x1 ∧
     (⟨0, 0, 199, 199⟩ : Box2I).y0 ≤ 100 ∧ (100 : Int) ≤ (⟨0, 0, 199, 199⟩ : Box2I).y1) ∧
    (∃ b hf, calcBbox ⟨0, 0, 199, 199⟩ 2 50 (5, 100) = some (Except.ok (b, hf)) ∧
      b.dimX = b.dimY ∧ b.insideOf ⟨0, 0, 199, 199⟩) :=
  ⟨⟨by decide, by decide, by decide, by decide⟩,
   calcBbox_terminates ⟨0, 0, 199, 199⟩ 5 100 50
     (by decide) (by decide) (by decide) (by decide)⟩

theorem PixelArray.mem_pixels (a : PixelArray) (i j : Nat) :
    (i, j) ∈ a.pixels ↔ i < a.rows ∧ j < a.cols := by
  simp [PixelArray.pixels, List.mem_flatMap, List.mem_range, List.mem_map]

theorem le_foldl_max (xs : List Rat) : ∀ x : Rat, x ≤ xs.foldl max x := by
  induction xs with
  | nil => intro x; simp
  | cons y ys ih =>
    intro x
    rw [List.foldl_cons]
    exact le_trans (le_max_left x y) (ih (max x y))

theorem mem_le_foldl_max (xs : List Rat) : ∀ x y : Rat, y ∈ xs → y ≤ xs.foldl max x := by
  induction xs with
  | nil => intro x y hy; simp at hy
  | cons z zs ih =>
    intro x y hy
    rw [List.foldl_cons]
    rcases List.mem_cons.mp hy with h | h
    · subst h
      exact le_trans (le_max_right x y) (le_foldl_max zs (max x y))
    · exact ih (max x z) y h

theorem listMax_ge (l : List Rat) (y : Rat) (hy : y ∈ l) : y ≤ listMax l := by
  cases l with
  | nil => simp at hy
  | cons x xs =>
    rcases List.mem_cons.mp hy with h | h
    · subst h
      exact le_foldl_max xs y
    · exact mem_le_foldl_max xs x y h

theorem foldl_max_mem (xs : List Rat) : ∀ x : Rat, xs.foldl max x ∈ x :: xs := by
  induction xs with
  | nil => intro x; simp
  | cons y ys ih =>
    intro x
    rw [List.foldl_cons]
    rcases List.mem_cons.mp (ih (max x y)) with h | h
    · rw [h]
      rcases max_choice x y with hc | hc <;> rw [hc]
      · exact List.mem_cons_self _ _
      · exact List.mem_cons_of_mem _ (List.mem_cons_self _ _)
    · exact List.mem_cons_of_mem _ (List.mem_cons_of_mem _ h)

theorem listMax_mem (l : List Rat) (h : l ≠ []) : listMax l ∈ l := by
  cases l with
  | nil => exact absurd rfl h
  | cons x xs => exact foldl_max_mem xs x

theorem maxCoords_ne_nil (a : PixelArray) (h : a.pixels ≠ []) : a.maxCoords ≠ [] := by
  have hmm : a.maxVal ∈ a.pixels.map fun p => a.val p.1 p.2 := by
    apply listMax_mem
    simpa using h
  rcases List.mem_map.mp hmm with ⟨p, hp, hv⟩
  have hpm : p ∈ a.maxCoords := by
    unfold PixelArray.maxCoords
    exact List.mem_filter.mpr ⟨hp, by simpa using hv⟩
  exact List.ne_nil_of_mem hpm

/-- C3: the code's branch condition (`not uniquePeak or nSatPix`) selects the
center of mass exactly when the maximum is attained more than once or there
are saturated pixels. -/
theorem chosenPeak_eq_claim (a : PixelArray) (nSatPix : Nat) :
    chosenPeak a nSatPix = chosenPeakClaim a nSatPix := by
  unfold chosenPeak chosenPeakClaim argMax2d
  cases hmc : a.maxCoords with
  | nil => rfl
  | cons c rest =>
    have hcond : (rest.isEmpty = false ∨ nSatPix ≠ 0) ↔
        (1 < (c :: rest).length ∨ 0 < nSatPix) := by
      cases rest with
      | nil => simp; omega
      | cons d t => simp
    simp only
    rw [if_congr hcond rfl rfl]

theorem chosenPeak_isSome (a : PixelArray) (nSatPix : Nat) (hne : a.pixels ≠ []) :
    ∃ pk : Rat × Rat, chosenPeak a nSatPix = some pk := by
  have hmc := maxCoords_ne_nil a hne
  unfold chosenPeak argMax2d
  cases hmcs : a.maxCoords with
  | nil => exact absurd hmcs hmc
  | cons c rest =>
    simp only
    by_cases hcond : rest.isEmpty = false ∨ nSatPix ≠ 0
    · rw [if_pos hcond]
      exact ⟨_, rfl⟩
    · rw [if_neg hcond]
      exact ⟨_, rfl⟩

/-- C4: on a nonempty cutout, refinement picks a peak `(r, c)` and returns
`(x + (c - halfSize), y + (r - halfSize))` - rows map to the y offset and
columns to the x offset - and never fails. -/
theorem tweakCentroid_formula (a : PixelArray) (nSatPix boxHalfSize : Nat)
    (centroid : Rat × Rat) (hne : a.pixels ≠ []) :
    ∃ pk : Rat × Rat, chosenPeak a nSatPix = some pk ∧
      tweakCentroid a nSatPix boxHalfSize centroid =
        some (centroid.1 + (pk.2 - (boxHalfSize : Rat)),
              centroid.2 + (pk.1 - (boxHalfSize : Rat))) := by
  obtain ⟨pk, hpk⟩ := chosenPeak_isSome a nSatPix hne
  refine ⟨pk, hpk, ?_⟩
  unfold tweakCentroid
  rw [hpk]

/-- Witness for C4 at a concrete cutout with an ambiguous maximum. -/
theorem tweakCentroid_formula_witness :
    twoMaxArray.pixels ≠ [] ∧
    (∃ pk : Rat × Rat, chosenPeak twoMaxArray 0 = some pk ∧
      tweakCentroid twoMaxArray 0 1 (10, 20) =
        some ((10 : Rat) + (pk.2 - ((1 : Nat) : Rat)),
              (20 : Rat) + (pk.1 - ((1 : Nat) : Rat)))) :=
  ⟨by decide, tweakCentroid_formula twoMaxArray 0 1 (10, 20) (by decide)⟩

theorem radialSamples_fst_le (a : PixelArray) (s : Rat × Rat)
    (hs : s ∈ radialSamples a) :
    s.1 ≤ ((a.rows / 2 : Nat) : Rat) * ((a.rows / 2 : Nat) : Rat) := by
  rcases List.mem_map.mp hs with ⟨p, hp, heq⟩
  rcases List.mem_filter.mp hp with ⟨_, hdisk⟩
  have h1 : a.distSq p.1 p.2 = s.1 := congrArg Prod.fst heq
  rw [← h1]
  simpa [PixelArray.inDisk] using hdisk

theorem mem_radialSamples (a : PixelArray) (i j : Nat) (hi : i < a.rows)
    (hj : j < a.cols)
    (hle : a.distSq i j ≤ ((a.rows / 2 : Nat) : Rat) * ((a.rows / 2 : Nat) : Rat)) :
    (a.distSq i j, a.val i j) ∈ radialSamples a := by
  apply List.mem_map.mpr
  refine ⟨(i, j), ?_, rfl⟩
  apply List.mem_filter.mpr
  exact ⟨(a.mem_pixels i j).mpr ⟨hi, hj⟩, by simpa [PixelArray.inDisk] using hle⟩

theorem mem_radialSamplesSpec (a : PixelArray) (i j : Nat) (hi : i < a.rows)
    (hj : j < a.cols)
    (hle : a.distSq i j ≤ (a.rows : Rat) / 2 * ((a.rows : Rat) / 2)) :
    (a.distSq i j, a.val i j) ∈ radialSamplesSpec a := by
  apply List.mem_map.mpr
  refine ⟨(i, j), ?_, rfl⟩
  apply List.mem_filter.mpr
  exact ⟨(a.mem_pixels i j).mpr ⟨hi, hj⟩, by simpa using hle⟩

/-- Counterexample to C5 as stated: pixel (1,1) of a 5x5 cutout is within
`width/2 = 2.5` of the center (distance squared 4.5 is at most 6.25) yet is
excluded by the code, whose threshold is the floor `5//2 = 2` (distance
squared must be at most 4). -/
theorem radialSamples_claim_counterexample :
    fiveArray.distSq 1 1 ≤ (fiveArray.rows : Rat) / 2 * ((fiveArray.rows : Rat) / 2) ∧
    (fiveArray.distSq 1 1, fiveArray.val 1 1) ∈ radialSamplesSpec fiveArray ∧
    (fiveArray.distSq 1 1, fiveArray.val 1 1) ∉ radialSamples fiveArray := by
  have h1 : fiveArray.distSq 1 1 = 9 / 2 := by
    norm_num [PixelArray.distSq, fiveArray]
  have h2 : fiveArray.distSq 1 1 ≤ (fiveArray.rows : Rat) / 2 * ((fiveArray.rows : Rat) / 2) := by
    rw [h1]
    norm_num [fiveArray]
  refine ⟨h2, mem_radialSamplesSpec fiveArray 1 1 (by norm_num [fiveArray])
    (by norm_num [fiveArray]) h2, ?_⟩
  intro hmem
  have hle := radialSamples_fst_le fiveArray _ hmem
  rw [h1] at hle
  norm_num [fiveArray] at hle

/-- C5 amended: a pixel's (distance squared, value) sample is kept exactly when
its distance from the geometric center is at most the floor `rows//2` of
half the width (not `rows/2` itself). -/
theorem radialSamples_mem_iff (a : PixelArray) (i j : Nat)
    (hi : i < a.rows) (hj : j < a.cols) :
    (a.distSq i j ≤ ((a.rows / 2 : Nat) : Rat) * ((a.rows / 2 : Nat) : Rat) ↔
      (a.distSq i j, a.val i j) ∈ radialSamples a) := by
  constructor
  · exact mem_radialSamples a i j hi hj
  · intro hmem
    exact radialSamples_fst_le a _ hmem

/-- Witness for the amended C5 at pixel (2,2) of the 5x5 cutout. -/
theorem radialSamples_mem_iff_witness :
    (2 < fiveArray.rows ∧ 2 < fiveArray.cols) ∧
    (fiveArray.distSq 2 2 ≤ ((fiveArray.rows / 2 : Nat) : Rat) * ((fiveArray.rows / 2 : Nat) : Rat) ↔
      (fiveArray.distSq 2 2, fiveArray.val 2 2) ∈ radialSamples fiveArray) :=
  ⟨⟨by decide, by decide⟩, radialSamples_mem_iff fiveArray 2 2 (by decide) (by decide)⟩

theorem pairLe_fst {p q : Rat × Rat} (h : pairLe p q) : p.1 ≤ q.1 := by
  rcases h with h | h
  · exact le_of_lt h
  · exact le_of_eq h.1

theorem foldl_min_le_init (xs : List Rat) : ∀ x : Rat, xs.foldl min x ≤ x := by
  induction xs with
  | nil => intro x; simp
  | cons y ys ih =>
    intro x
    rw [List.foldl_cons]
    exact le_trans (ih (min x y)) (min_le_left x y)

theorem mem_foldl_min_le (xs : List Rat) : ∀ x y : Rat, y ∈ xs → xs.foldl min x ≤ y := by
  induction xs with
  | nil => intro x y hy; simp at hy
  | cons z zs ih =>
    intro x y hy
    rw [List.foldl_cons]
    rcases List.mem_cons.mp hy with h | h
    · subst h
      exact le_trans (foldl_min_le_init zs (min x y)) (min_le_right x y)
    · exact ih (min x z) y h

theorem listMin_le (l : List Rat) (y : Rat) (hy : y ∈ l) : listMin l ≤ y := by
  cases l with
  | nil => simp at hy
  | cons x xs =>
    rcases List.mem_cons.mp hy with h | h
    · subst h
      exact foldl_min_le_init xs y
    · exact mem_foldl_min_le xs x y h

theorem foldl_min_eq (xs : List Rat) : ∀ a b : Rat, xs.foldl min (min a b) = min a (xs.foldl min b) := by
  induction xs with
  | nil => intro a b; simp
  | cons c cs ih =>
    intro a b
    rw [List.foldl_cons, min_assoc, ih a (min b c), List.foldl_cons]

theorem listMin_cons₂ (x y : Rat) (rest : List Rat) :
    listMin (x :: y :: rest) = min x (listMin (y :: rest)) := by
  show (y :: rest).foldl min x = min x (rest.foldl min y)
  rw [List.foldl_cons]
  exact foldl_min_eq rest x y

theorem argminFirst_lt_length (l : List Rat) (h : l ≠ []) : argminFirst l < l.length := by
  induction l with
  | nil => exact absurd rfl h
  | cons x xs ih =>
    cases xs with
    | nil => simp [argminFirst]
    | cons y rest =>
      rw [argminFirst]
      split
      · have := ih (by simp)
        simpa using Nat.succ_lt_succ this
      · simp

theorem argminFirst_getD (l : List Rat) (h : l ≠ []) :
    l.getD (argminFirst l) 0 = listMin l := by
  induction l with
  | nil => exact absurd rfl h
  | cons x xs ih =>
    cases xs with
    | nil => simp [argminFirst, listMin]
    | cons y rest =>
      rw [argminFirst, listMin_cons₂]
      split
      · rename_i hlt
        rw [List.getD_cons_succ, ih (by simp), min_eq_right (le_of_lt hlt)]
      · rename_i hge
        rw [List.getD_cons_zero, min_eq_left (le_of_not_lt hge)]

theorem argminFirst_first (l : List Rat) (j : Nat) (hj : j < argminFirst l) :
    listMin l < l.getD j 0 := by
  induction l generalizing j with
  | nil => simp [argminFirst] at hj
  | cons x xs ih =>
    cases xs with
    | nil => simp [argminFirst] at hj
    | cons y rest =>
      rw [argminFirst] at hj
      rw [listMin_cons₂]
      split at hj
      · rename_i hlt
        have hmin : min x (listMin (y :: rest)) = listMin (y :: rest) :=
          min_eq_right (le_of_lt hlt)
        rw [hmin]
        cases j with
        | zero => simpa using hlt
        | succ j' =>
          rw [List.getD_cons_succ]
          exact ih j' (by omega)
      · omega

theorem cumsumFrom_length (l : List Rat) : ∀ acc : Rat, (cumsumFrom acc l).length = l.length := by
  induction l with
  | nil => intro acc; rfl
  | cons x xs ih =>
    intro acc
    rw [cumsumFrom]
    simpa using ih (acc + x)

theorem cumsumFrom_all_gt (l : List Rat) (hpos : ∀ v ∈ l, 0 < v) :
    ∀ (acc : Rat) (y : Rat), y ∈ cumsumFrom acc l → acc < y := by
  induction l with
  | nil => intro acc y hy; simp [cumsumFrom] at hy
  | cons x xs ih =>
    intro acc y hy
    rw [cumsumFrom] at hy
    have hx : 0 < x := hpos x (List.mem_cons_self x xs)
    rcases List.mem_cons.mp hy with h | h
    · subst h; linarith
    · have := ih (fun v hv => hpos v (List.mem_cons_of_mem _ hv)) (acc + x) y h
      linarith

theorem cumsumFrom_chain (l : List Rat) (hpos : ∀ v ∈ l, 0 < v) :
    ∀ acc : Rat, List.Chain' (· < ·) (cumsumFrom acc l) := by
  induction l with
  | nil => intro acc; simp [cumsumFrom]
  | cons x xs ih =>
    intro acc
    rw [cumsumFrom]
    apply List.chain'_cons'.mpr
    constructor
    · intro z hz
      have hzmem : z ∈ cumsumFrom (acc + x) xs := List.mem_of_mem_head? hz
      exact cumsumFrom_all_gt xs (fun v hv => hpos v (List.mem_cons_of_mem _ hv)) (acc + x) z hzmem
    · exact ih (fun v hv => hpos v (List.mem_cons_of_mem _ hv)) (acc + x)

theorem listMax_of_sorted (l : List Rat) (hs : List.Sorted (· ≤ ·) l) (hne : l ≠ []) :
    listMax l = l.getD (l.length - 1) 0 := by
  induction l with
  | nil => exact absurd rfl hne
  | cons x xs ih =>
    cases xs with
    | nil => simp [listMax]
    | cons y rest =>
      have hxy : x ≤ y := (List.sorted_cons.mp hs).1 y (List.mem_cons_self y rest)
      have hs' : List.Sorted (· ≤ ·) (y :: rest) := (List.sorted_cons.mp hs).2
      have h1 : listMax (x :: y :: rest) = listMax (y :: rest) := by
        show (y :: rest).foldl max x = rest.foldl max y
        rw [List.foldl_cons, max_eq_right hxy]
      rw [h1, ih hs' (by simp)]
      simp only [List.length_cons, Nat.add_sub_cancel]
      rw [List.getD_cons_succ]

theorem eeTable_length (dists vals : List Rat) :
    (eeTable dists vals).length = (List.zip dists vals).length :=
  (List.perm_insertionSort pairLe (List.zip dists vals)).length_eq

theorem eeTable_ne_nil (dists vals : List Rat) (hne : List.zip dists vals ≠ []) :
    eeTable dists vals ≠ [] := by
  intro h0
  apply hne
  have hl := eeTable_length dists vals
  rw [h0] at hl
  exact List.length_eq_zero.mp hl.symm

theorem radii_length (dists vals : List Rat) :
    (radii dists vals).length = (eeTable dists vals).length := by
  unfold radii
  rw [List.length_map]

theorem cumFluxes_length (dists vals : List Rat) :
    (cumFluxes dists vals).length = (eeTable dists vals).length := by
  unfold cumFluxes
  rw [cumsumFrom_length, List.length_map]

theorem cumFluxesNorm_length (dists vals : List Rat) :
    (cumFluxesNorm dists vals).length = (cumFluxes dists vals).length := by
  unfold cumFluxesNorm
  rw [List.length_map]

theorem radii_sorted (dists vals : List Rat) :
    List.Sorted (· ≤ ·) (radii dists vals) := by
  unfold radii
  exact List.Pairwise.map Prod.fst (fun a b hab => pairLe_fst hab)
    (List.sorted_insertionSort pairLe (List.zip dists vals))

/-- C6: on a nonempty sample table the encircled-energy radius at percentage
`p` is the sorted-ascending distance at the index whose normalized
cumulative flux is closest to `p/100`, the first such index when the minimum
absolute difference is attained several times. -/
theorem eeRadius_first_closest (dists vals : List Rat) (p : Rat)
    (hne : List.zip dists vals ≠ []) :
    argminFirst (eeDiffs dists vals p) < (radii dists vals).length ∧
    (∀ j, j < (eeDiffs dists vals p).length →
      (eeDiffs dists vals p).getD (argminFirst (eeDiffs dists vals p)) 0 ≤
        (eeDiffs dists vals p).getD j 0) ∧
    (∀ j, j < argminFirst (eeDiffs dists vals p) →
      (eeDiffs dists vals p).getD (argminFirst (eeDiffs dists vals p)) 0 <
        (eeDiffs dists vals p).getD j 0) ∧
    List.Sorted (· ≤ ·) (radii dists vals) ∧
    getEncircledEnergyRadius dists vals p =
      (radii dists vals).getD (argminFirst (eeDiffs dists vals p)) 0 := by
  have htne : eeTable dists vals ≠ [] := eeTable_ne_nil dists vals hne
  have hdlen : (eeDiffs dists vals p).length = (eeTable dists vals).length := by
    unfold eeDiffs
    rw [List.length_map, cumFluxesNorm_length, cumFluxes_length]
  have hrlen := radii_length dists vals
  have hdne : eeDiffs dists vals p ≠ [] := by
    intro h0
    apply htne
    have h1 := congrArg List.length h0
    rw [hdlen] at h1
    simp only [List.length_nil] at h1
    exact List.length_eq_zero.mp h1
  have hi : argminFirst (eeDiffs dists vals p) < (eeDiffs dists vals p).length :=
    argminFirst_lt_length _ hdne
  refine ⟨by omega, ?_, ?_, radii_sorted dists vals, rfl⟩
  · intro j hj
    rw [argminFirst_getD _ hdne]
    apply listMin_le
    rw [List.getD_eq_getElem _ 0 hj]
    exact List.getElem_mem hj
  · intro j hj
    rw [argminFirst_getD _ hdne]
    exact argminFirst_first _ j hj

/-- Witness for C6 on the one-sample table `[(0, 1)]` at 50%. -/
theorem eeRadius_first_closest_witness :
    List.zip [(0 : Rat)] [(1 : Rat)] ≠ [] ∧
    (argminFirst (eeDiffs [(0 : Rat)] [(1 : Rat)] 50) <
       (radii [(0 : Rat)] [(1 : Rat)]).length ∧
     (∀ j, j < (eeDiffs [(0 : Rat)] [(1 : Rat)] 50).length →
       (eeDiffs [(0 : Rat)] [(1 : Rat)] 50).getD
           (argminFirst (eeDiffs [(0 : Rat)] [(1 : Rat)] 50)) 0 ≤
         (eeDiffs [(0 : Rat)] [(1 : Rat)] 50).getD j 0) ∧
     (∀ j, j < argminFirst (eeDiffs [(0 : Rat)] [(1 : Rat)] 50) →
       (eeDiffs [(0 : Rat)] [(1 : Rat)] 50).getD
           (argminFirst (eeDiffs [(0 : Rat)] [(1 : Rat)] 50)) 0 <
         (eeDiffs [(0 : Rat)] [(1 : Rat)] 50).getD j 0) ∧
     List.Sorted (· ≤ ·) (radii [(0 : Rat)] [(1 : Rat)]) ∧
     getEncircledEnergyRadius [(0 : Rat)] [(1 : Rat)] 50 =
       (radii [(0 : Rat)] [(1 : Rat)]).getD
         (argminFirst (eeDiffs [(0 : Rat)] [(1 : Rat)] 50)) 0) :=
  ⟨by decide, eeRadius_first_closest [0] [1] 50 (by decide)⟩

theorem cumFluxes_all_pos (dists vals : List Rat) (hpos : ∀ v ∈ vals, 0 < v) :
    ∀ c ∈ cumFluxes dists vals, 0 < c := by
  intro c hc
  have hvpos : ∀ v ∈ (eeTable dists vals).map Prod.snd, 0 < v := by
    intro v hv
    rcases List.mem_map.mp hv with ⟨q, hq, hqv⟩
    have hqz : q ∈ List.zip dists vals := by
      unfold eeTable at hq
      rwa [List.mem_insertionSort] at hq
    exact hqv ▸ hpos q.2 (List.of_mem_zip hqz).2
  exact cumsumFrom_all_gt _ hvpos 0 c hc

theorem cumFluxes_pairwise_lt (dists vals : List Rat) (hpos : ∀ v ∈ vals, 0 < v) :
    List.Pairwise (· < ·) (cumFluxes dists vals) := by
  have hvpos : ∀ v ∈ (eeTable dists vals).map Prod.snd, 0 < v := by
    intro v hv
    rcases List.mem_map.mp hv with ⟨q, hq, hqv⟩
    have hqz : q ∈ List.zip dists vals := by
      unfold eeTable at hq
      rwa [List.mem_insertionSort] at hq
    exact hqv ▸ hpos q.2 (List.of_mem_zip hqz).2
  exact List.chain'_iff_pairwise.mp (cumsumFrom_chain _ hvpos 0)

/-- C7 amended: when every sample value is strictly positive, the cumulative
flux array is monotonically non-decreasing (indeed increasing), its maximum
is its final element, the normalized array lies in (0, 1] and reaches 1 only
at the last sorted point, and the encircled-energy radius at 100% equals the
maximum sampled radius. -/
theorem cumFluxes_posValues_invariants (dists vals : List Rat)
    (hne : List.zip dists vals ≠ []) (hpos : ∀ v ∈ vals, 0 < v) :
    List.Sorted (· ≤ ·) (cumFluxes dists vals) ∧
    listMax (cumFluxes dists vals) =
      (cumFluxes dists vals).getD ((cumFluxes dists vals).length - 1) 0 ∧
    (∀ c ∈ cumFluxesNorm dists vals, 0 < c ∧ c ≤ 1) ∧
    (cumFluxesNorm dists vals).getD ((cumFluxesNorm dists vals).length - 1) 0 = 1 ∧
    (∀ j, j + 1 < (cumFluxesNorm dists vals).length →
      (cumFluxesNorm dists vals).getD j 0 < 1) ∧
    getEncircledEnergyRadius dists vals 100 = listMax (radii dists vals) := by
  have htne : eeTable dists vals ≠ [] := eeTable_ne_nil dists vals hne
  have hcflen := cumFluxes_length dists vals
  have hnlen := cumFluxesNorm_length dists vals
  have hrlen := radii_length dists vals
  have htlen0 : 0 < (eeTable dists vals).length := List.length_pos.mpr htne
  have hcfne : cumFluxes dists vals ≠ [] := by
    intro h0
    have h1 := congrArg List.length h0
    rw [hcflen] at h1
    simp only [List.length_nil] at h1
    omega
  have hpw : List.Pairwise (· < ·) (cumFluxes dists vals) :=
    cumFluxes_pairwise_lt dists vals hpos
  have hsorted : List.Sorted (· ≤ ·) (cumFluxes dists vals) := hpw.imp le_of_lt
  have hMlast : listMax (cumFluxes dists vals) =
      (cumFluxes dists vals).getD ((cumFluxes dists vals).length - 1) 0 :=
    listMax_of_sorted _ hsorted hcfne
  have hallpos : ∀ c ∈ cumFluxes dists vals, 0 < c := cumFluxes_all_pos dists vals hpos
  have hMpos : 0 < listMax (cumFluxes dists vals) := hallpos _ (listMax_mem _ hcfne)
  have hMne : listMax (cumFluxes dists vals) ≠ 0 := ne_of_gt hMpos
  have hlast_lt : (cumFluxes dists vals).length - 1 < (cumFluxes dists vals).length := by
    omega
  have hnorm_getD : ∀ j, j < (cumFluxes dists vals).length →
      (cumFluxesNorm dists vals).getD j 0 =
        (cumFluxes dists vals).getD j 0 / listMax (cumFluxes dists vals) := by
    intro j hj
    have hj' : j < (cumFluxesNorm dists vals).length := by omega
    rw [List.getD_eq_getElem _ 0 hj', List.getD_eq_getElem _ 0 hj]
    unfold cumFluxesNorm
    simp
  have hlast1 : (cumFluxesNorm dists vals).getD ((cumFluxesNorm dists vals).length - 1) 0 = 1 := by
    rw [hnlen, hnorm_getD _ hlast_lt, ← hMlast]
    exact div_self hMne
  have hjlt1 : ∀ j, j + 1 < (cumFluxesNorm dists vals).length →
      (cumFluxesNorm dists vals).getD j 0 < 1 := by
    intro j hj
    have hj' : j < (cumFluxes dists vals).length := by omega
    rw [hnorm_getD j hj']
    apply (div_lt_one hMpos).mpr
    have hlt : (cumFluxes dists vals).getD j 0 <
        (cumFluxes dists vals).getD ((cumFluxes dists vals).length - 1) 0 := by
      rw [List.getD_eq_getElem _ 0 hj', List.getD_eq_getElem _ 0 hlast_lt]
      exact List.pairwise_iff_getElem.mp hpw j _ hj' hlast_lt (by omega)
    rw [hMlast]
    exact hlt
  refine ⟨hsorted, hMlast, ?_, hlast1, hjlt1, ?_⟩
  · intro c hc
    rcases List.mem_map.mp hc with ⟨c', hc', hcc⟩
    constructor
    · rw [← hcc]
      exact div_pos (hallpos c' hc') hMpos
    · rw [← hcc]
      exact (div_le_one hMpos).mpr (listMax_ge _ c' hc')
  · have h100 : (100 : Rat) / 100 = 1 := by norm_num
    have hdlen : ((cumFluxesNorm dists vals).map fun c => |(100 : Rat) / 100 - c|).length =
        (cumFluxes dists vals).length := by
      rw [List.length_map, hnlen]
    have hdne : ((cumFluxesNorm dists vals).map fun c => |(100 : Rat) / 100 - c|) ≠ [] := by
      intro h0
      have h1 := congrArg List.length h0
      rw [hdlen] at h1
      simp only [List.length_nil] at h1
      omega
    have hd_getD : ∀ j, j < (cumFluxes dists vals).length →
        ((cumFluxesNorm dists vals).map fun c => |(100 : Rat) / 100 - c|).getD j 0 =
          |1 - (cumFluxesNorm dists vals).getD j 0| := by
      intro j hj
      have hj1 : j < (cumFluxesNorm dists vals).length := by omega
      have hj2 : j < ((cumFluxesNorm dists vals).map fun c => |(100 : Rat) / 100 - c|).length := by
        omega
      rw [List.getD_eq_getElem _ 0 hj2, List.getD_eq_getElem _ 0 hj1]
      simp [h100]
    have hdlast : ((cumFluxesNorm dists vals).map fun c => |(100 : Rat) / 100 - c|).getD
        ((cumFluxes dists vals).length - 1) 0 = 0 := by
      rw [hd_getD _ hlast_lt]
      have h2 := hlast1
      rw [hnlen] at h2
      rw [h2]
      simp
    have hdposj : ∀ j, j + 1 < (cumFluxes dists vals).length →
        0 < ((cumFluxesNorm dists vals).map fun c => |(100 : Rat) / 100 - c|).getD j 0 := by
      intro j hj
      rw [hd_getD j (by omega)]
      have h3 := hjlt1 j (by omega)
      rw [abs_of_pos (by linarith)]
      linarith
    have hi : argminFirst ((cumFluxesNorm dists vals).map fun c => |(100 : Rat) / 100 - c|) <
        ((cumFluxesNorm dists vals).map fun c => |(100 : Rat) / 100 - c|).length :=
      argminFirst_lt_length _ hdne
    have hival := argminFirst_getD _ hdne
    have himin : listMin ((cumFluxesNorm dists vals).map fun c => |(100 : Rat) / 100 - c|) ≤ 0 := by
      rw [← hdlast]
      apply listMin_le
      rw [List.getD_eq_getElem _ 0 (by omega :
        (cumFluxes dists vals).length - 1 <
          ((cumFluxesNorm dists vals).map fun c => |(100 : Rat) / 100 - c|).length)]
      exact List.getElem_mem _
    have hige : 0 ≤ ((cumFluxesNorm dists vals).map fun c => |(100 : Rat) / 100 - c|).getD
        (argminFirst ((cumFluxesNorm dists vals).map fun c => |(100 : Rat) / 100 - c|)) 0 := by
      rw [List.getD_eq_getElem _ 0 hi]
      have hmem := List.getElem_mem hi
      rcases List.mem_map.mp hmem with ⟨c, _, hc⟩
      rw [← hc]
      exact abs_nonneg _
    have hizero : ((cumFluxesNorm dists vals).map fun c => |(100 : Rat) / 100 - c|).getD
        (argminFirst ((cumFluxesNorm dists vals).map fun c => |(100 : Rat) / 100 - c|)) 0 = 0 :=
      le_antisymm (hival ▸ himin) hige
    have hilast : argminFirst ((cumFluxesNorm dists vals).map fun c => |(100 : Rat) / 100 - c|) =
        (cumFluxes dists vals).length - 1 := by
      by_contra hneq
      have hj : argminFirst ((cumFluxesNorm dists vals).map fun c => |(100 : Rat) / 100 - c|) + 1 <
          (cumFluxes dists vals).length := by omega
      have h4 := hdposj _ hj
      rw [hizero] at h4
      exact lt_irrefl 0 h4
    have hrne : radii dists vals ≠ [] := by
      intro h0
      have h1 := congrArg List.length h0
      rw [hrlen] at h1
      simp only [List.length_nil] at h1
      omega
    show (radii dists vals).getD
        (argminFirst ((cumFluxesNorm dists vals).map fun c => |(100 : Rat) / 100 - c|)) 0 =
      listMax (radii dists vals)
    rw [hilast, listMax_of_sorted (radii dists vals) (radii_sorted dists vals) hrne]
    congr 1
    omega

/-- Witness for the amended C7 on the positive one-sample table. -/
theorem cumFluxes_posValues_invariants_witness :
    (List.zip [(0 : Rat)] [(1 : Rat)] ≠ [] ∧ ∀ v ∈ [(1 : Rat)], 0 < v) ∧
    (List.Sorted (· ≤ ·) (cumFluxes [(0 : Rat)] [(1 : Rat)]) ∧
     listMax (cumFluxes [(0 : Rat)] [(1 : Rat)]) =
       (cumFluxes [(0 : Rat)] [(1 : Rat)]).getD
         ((cumFluxes [(0 : Rat)] [(1 : Rat)]).length - 1) 0 ∧
     (∀ c ∈ cumFluxesNorm [(0 : Rat)] [(1 : Rat)], 0 < c ∧ c ≤ 1) ∧
     (cumFluxesNorm [(0 : Rat)] [(1 : Rat)]).getD
       ((cumFluxesNorm [(0 : Rat)] [(1 : Rat)]).length - 1) 0 = 1 ∧
     (∀ j, j + 1 < (cumFluxesNorm [(0 : Rat)] [(1 : Rat)]).length →
       (cumFluxesNorm [(0 : Rat)] [(1 : Rat)]).getD j 0 < 1) ∧
     getEncircledEnergyRadius [(0 : Rat)] [(1 : Rat)] 100 =
       listMax (radii [(0 : Rat)] [(1 : Rat)])) :=
  ⟨⟨by decide, by decide⟩,
   cumFluxes_posValues_invariants [0] [1] (by decide) (by decide)⟩

/-- Counterexample to C7 as stated: with sample values `[1, -1]` (negative
pixel values occur in background-subtracted data) the cumulative flux array
`[1, 0]` is not monotonically non-decreasing, and the encircled-energy
radius at 100% is the smallest sampled radius 0, not the maximum sampled
radius 1. -/
theorem cumFluxes_claim_counterexample :
    ¬ List.Sorted (· ≤ ·) (cumFluxes [(0 : Rat), 1] [(1 : Rat), -1]) ∧
    getEncircledEnergyRadius [(0 : Rat), 1] [(1 : Rat), -1] 100 = 0 ∧
    listMax (radii [(0 : Rat), 1] [(1 : Rat), -1]) = 1 := by
  have hcond : pairLe ((0 : Rat), (1 : Rat)) ((1 : Rat), (-1 : Rat)) := by
    unfold pairLe
    norm_num
  have ht : eeTable [(0 : Rat), 1] [(1 : Rat), -1] =
      [((0 : Rat), (1 : Rat)), ((1 : Rat), (-1 : Rat))] := by
    unfold eeTable
    simp [hcond]
  have hcf : cumFluxes [(0 : Rat), 1] [(1 : Rat), -1] = [1, 0] := by
    unfold cumFluxes
    rw [ht]
    show cumsumFrom 0 [(1 : Rat), -1] = [1, 0]
    norm_num [cumsumFrom]
  have hm1 : listMax [(1 : Rat), (0 : Rat)] = 1 := by
    show max (1 : Rat) 0 = 1
    rw [max_eq_left]
    norm_num
  have hnorm : cumFluxesNorm [(0 : Rat), 1] [(1 : Rat), -1] = [1, 0] := by
    unfold cumFluxesNorm
    rw [hcf, hm1]
    norm_num
  have hr : radii [(0 : Rat), 1] [(1 : Rat), -1] = [0, 1] := by
    unfold radii
    rw [ht]
    rfl
  refine ⟨?_, ?_, ?_⟩
  · rw [hcf]
    intro hs
    have h01 := (List.sorted_cons.mp hs).1 0 (List.mem_cons_self 0 [])
    norm_num at h01
  · unfold getEncircledEnergyRadius eeDiffs
    rw [hnorm, hr]
    have hdiffs : ([(1 : Rat), 0].map fun c => |(100 : Rat) / 100 - c|) =
        [(0 : Rat), 1] := by
      norm_num
    rw [hdiffs]
    have hargmin : argminFirst [(0 : Rat), 1] = 0 := by
      rw [argminFirst]
      rw [if_neg]
      show ¬ listMin [(1 : Rat)] < 0
      show ¬ (1 : Rat) < 0
      norm_num
    rw [hargmin]
    rfl
  · rw [hr]
    show max (0 : Rat) 1 = 1
    rw [max_eq_right]
    norm_num

/-- C8: on fit failure, starting from a fresh stats object, the reported
amplitude and FWHM are NaN, but the reported mean (`fitGausMean`, the
`Radial fitted position` field) is left absent - the NaN lands on the
unused `fitMean` attribute instead. -/
theorem applyFitResult_failure_gausMean_absent :
    (applyFitResult ⟨none, none, none, none⟩ 0 none).fitAmp = some PyFloat.nan ∧
    (applyFitResult ⟨none, none, none, none⟩ 0 none).fitFwhm = some PyFloat.nan ∧
    (applyFitResult ⟨none, none, none, none⟩ 0 none).fitMean = some PyFloat.nan ∧
    (applyFitResult ⟨none, none, none, none⟩ 0 none).fitGausMean = none := by
  refine ⟨rfl, rfl, rfl, rfl⟩

/-- C9: without a caller-supplied centroid a failed detection is a fatal
explicit error and a successful detection's centroid is adopted; with a
caller-supplied centroid the result is that centroid whatever the detection
collaborator would return (detection is not consulted). -/
theorem initialCentroid_spec (c d : Rat × Rat) :
    (∃ msg, initialCentroid none none = Except.error msg) ∧
    initialCentroid none (some d) = Except.ok d ∧
    (∀ det : Option (Rat × Rat), initialCentroid (some c) det = Except.ok c) := by
  refine ⟨⟨_, rfl⟩, rfl, fun det => rfl⟩

end RapidAnalysis
